import Mathlib

/-!
Product repository (`pkg/repository/product/product.go`).

A shallow embedding of the in-memory product repository `Service` and of its
five operations `Add`, `GetAll`, `Get`, `Delete`, `Update` (plus the private
helper `exist`), followed by theorems about them.

Modelling decisions, all read off the Go source:

* `*api.Product` is a reference.  A non-nil reference is an address `Ptr`, the
  objects live in a heap `Heap α`, and `Option Ptr` is a possibly-nil reference
  (`none` is `nil`).  `Add` writes `product.UID` through the reference, so the
  heap is threaded through `Add`.
* `map[string]*api.Product` is an association list with pairwise distinct keys.
  The order of its entries stands for the unspecified iteration order of a Go
  map.
* The `sync.RWMutex` is not represented in the methods: each is modelled as one
  sequential step.  For concurrent calls, `Add` is split at the points where it
  takes and releases the lock (`AddCall.step`).
* Go `int` is a 64-bit two's-complement integer: values are mathematical
  integers and sums are reduced by `wrapInt`.
* A run-time panic (nil dereference, slice bounds out of range) is the result
  `none`.
-/

namespace Repo

/-- A non-nil `*api.Product`: the address of a product object. -/
abbrev Ptr := Nat

/-- The `api.Product` object.  The repository reads `Name` and writes `UID`
(both promoted from the embedded `v1.Metadata`); every other field (alias,
labels, annotations, description, timestamps, spec, status) is carried along
untouched in `rest`. -/
structure Product (α : Type) where
  UID : String
  Name : String
  rest : α
deriving DecidableEq, Repr

/-- The memory holding the product objects, indexed by address. -/
abbrev Heap (α : Type) := Ptr → Product α

/-- Modelled from the spec: the three error factories of `pkg/errors`
(`ErrorAlreadyExist`, `ErrorNotFound`, `ErrorValidationFailed`), each applied to
the name it is reported for. -/
inductive ServiceError where
  | ErrorAlreadyExist (name : String)
  | ErrorNotFound (name : String)
  | ErrorValidationFailed (name : String)
deriving DecidableEq, Repr

/-- The `Service` struct: the field `products`, a map from name to product
reference. -/
structure Service where
  products : AList (fun _ : String => Ptr)

/-- Smallest value of a Go `int` (64 bit). -/
def minInt : Int := -(2 ^ 63)

/-- Largest value of a Go `int` (64 bit). -/
def maxInt : Int := 2 ^ 63 - 1

/-- Reduction of a mathematical integer to the Go `int` it wraps around to. -/
def wrapInt (x : Int) : Int := (x + 2 ^ 63) % 2 ^ 64 - 2 ^ 63

/-- The slice expression `s[lo:hi]` on a slice of capacity `cap`: it panics
unless `0 <= lo <= hi <= cap`. -/
def sliceExpr (s : List Ptr) (cap lo hi : Int) : Option (List Ptr) :=
  if 0 ≤ lo ∧ lo ≤ hi ∧ hi ≤ cap then
    some ((s.drop lo.toNat).take (hi - lo).toNat)
  else
    none

/-- The external `v1alpha1.SortByKey(products, orderKey, reverseOrder)`, which
rearranges the slice in place and is assumed to return.  The function `sort` is
given the heap (to read the fields it compares) and the slice contents, and
returns the contents it leaves behind.  The callee receives the slice header by
value, so whatever it does the caller's slice keeps its length: that is the
field `length_sort`. -/
structure Sorter (α : Type) where
  sort : Heap α → List Ptr → String → Bool → List Ptr
  length_sort : ∀ heap l orderKey reverseOrder,
    (sort heap l orderKey reverseOrder).length = l.length

/-- Go method `Service.exist`: is `name` a key of the map? -/
def Service.exist (p : Service) (name : String) : Bool :=
  match p.products.lookup name with
  | some _ => true
  | none => false

/-- Go method `Service.Add`.  The argument `uid` is the string returned by `uuid.NewV4().String()`.
The result holds the two return values, the service and the heap after the
call. -/
def Service.Add {α : Type} (uid : String) (p : Service) (heap : Heap α)
    (product : Option Ptr) :
    Option (Except ServiceError Ptr × Service × Heap α) :=
  match product with
  | none => none
  | some ptr =>
    if p.exist (heap ptr).Name then
      some (.error (.ErrorAlreadyExist (heap ptr).Name), p, heap)
    else
      let heap1 : Heap α := Function.update heap ptr { heap ptr with UID := uid }
      some (.ok ptr, { products := p.products.insert (heap1 ptr).Name ptr }, heap1)

/-- The loop `for _, v := range p.products { products = append(products, v) }`
of `GetAll`: the stored references in the iteration order of the map. -/
def Service.values (p : Service) : List Ptr :=
  p.products.entries.map (fun e => e.2)

/-- Go method `Service.GetAll`.  The snapshot is filled in the iteration order of the
map, handed to `SortByKey`, and sliced; `len(products)` and `cap(products)`
are the number of map entries, which `SortByKey` (it receives the slice header
by value) cannot change. -/
def Service.GetAll {α : Type} (SortByKey : Sorter α) (p : Service) (heap : Heap α)
    (start limit : Int) (orderKey : String) (reverseOrder : Bool) :
    Option (List Ptr) :=
  let snapshot : List Ptr := p.values
  let products := SortByKey.sort heap snapshot orderKey reverseOrder
  let len : Int := snapshot.length
  let start := if start ≥ len then len - 1 else start
  let end1 := wrapInt (start + limit)
  let end1 := if end1 > len then len else end1
  sliceExpr products len start end1

/-- Go method `Service.Get`: the stored reference, or `nil`. -/
def Service.Get (p : Service) (name : String) : Option Ptr :=
  match p.products.lookup name with
  | some product => some product
  | none => none

/-- Go method `Service.Delete`: the returned error (`none` is the nil error) and the
service after the call. -/
def Service.Delete (p : Service) (name : String) : Option ServiceError × Service :=
  if !p.exist name then
    (some (.ErrorNotFound name), p)
  else
    (none, { products := p.products.erase name })

/-- Go method `Service.Update`: the returned error (`none` is the nil error) and the
service after the call; a nil `product` panics. -/
def Service.Update {α : Type} (p : Service) (heap : Heap α) (name : String)
    (product : Option Ptr) : Option (Option ServiceError × Service) :=
  match product with
  | none => none
  | some ptr =>
    if (heap ptr).Name ≠ name then
      some (some (.ErrorValidationFailed name), p)
    else if !p.exist name then
      some (some (.ErrorNotFound name), p)
    else
      some (none, { products := p.products.insert name ptr })

/-- The keys of the map. -/
def Service.keys (p : Service) : List String := p.products.keys

/-- The number of entities in the store, `len(p.products)`. -/
def Service.size (p : Service) : Nat := p.products.entries.length

/-- Lines 86-92 of `GetAll`: the two indices of the final slice expression,
computed from `len(products)`, `start` and `limit`.  The start index is clamped
to `len - 1`, the end index is the wrapped sum clamped to `len`. -/
def sliceBounds (len start limit : Int) : Int × Int :=
  let start := if start ≥ len then len - 1 else start
  let end1 := wrapInt (start + limit)
  let end1 := if end1 > len then len else end1
  (start, end1)

/-- Modelled from the spec: the external comparator `CompareByKey(a, b, key)`
with the three answers less, equal, greater. -/
abbrev Comparator (α : Type) := Product α → Product α → String → Ordering

/-- The order the listing promises for an entity `a` placed before an entity
`b`: `a` is not greater than `b`, or, when `reverseOrder` is set, `a` is not
less than `b`. -/
def inOrder {α : Type} (CompareByKey : Comparator α) (heap : Heap α) (orderKey : String)
    (reverseOrder : Bool) (a b : Ptr) : Prop :=
  if reverseOrder then CompareByKey (heap a) (heap b) orderKey ≠ Ordering.lt
  else CompareByKey (heap a) (heap b) orderKey ≠ Ordering.gt

instance {α : Type} (CompareByKey : Comparator α) (heap : Heap α) (orderKey : String)
    (reverseOrder : Bool) : DecidableRel (inOrder CompareByKey heap orderKey reverseOrder) :=
  fun a b => inferInstanceAs (Decidable (if reverseOrder
    then CompareByKey (heap a) (heap b) orderKey ≠ Ordering.lt
    else CompareByKey (heap a) (heap b) orderKey ≠ Ordering.gt))

/-- The product built in iteration `i` of the loop of `NewService`: `newUID i`
is the string returned by `uuid.NewV4().String()` in that iteration and
`payload i` the remaining fields (alias, labels, timestamps, spec, status). -/
def seedProduct {α : Type} (newUID : Nat → String) (payload : Nat → α) (i : Nat) : Product α :=
  { UID := newUID i, Name := "product" ++ toString i, rest := payload i }

/-- The body of the loop of `NewService`: the product of iteration `i` is
allocated (at address `i`) and stored under its name. -/
def seedStep {α : Type} (newUID : Nat → String) (payload : Nat → α)
    (s : Service × Heap α) (i : Nat) : Service × Heap α :=
  let product := seedProduct newUID payload i
  ({ products := s.1.products.insert product.Name i }, Function.update s.2 i product)

/-- Go function `NewService`: starting from the empty map, ten iterations of the
loop.  The argument `heap` is the memory before the call. -/
def NewService {α : Type} (newUID : Nat → String) (payload : Nat → α) (heap : Heap α) :
    Service × Heap α :=
  (List.range 10).foldl (seedStep newUID payload) ({ products := ∅ }, heap)

/-- Every entity present in the store has a non-empty `UID`. -/
def Service.Identified {α : Type} (p : Service) (heap : Heap α) : Prop :=
  ∀ ptr ∈ p.values, (heap ptr).UID ≠ ""

instance {α : Type} (p : Service) (heap : Heap α) : Decidable (p.Identified heap) :=
  inferInstanceAs (Decidable (∀ ptr ∈ p.values, (heap ptr).UID ≠ ""))

/-- Every entity present in the store is stored under the key equal to its own
`Name`. -/
def Service.KeysAreNames {α : Type} (p : Service) (heap : Heap α) : Prop :=
  ∀ name ptr, p.products.lookup name = some ptr → (heap ptr).Name = name

/-- A call of one of the three mutating methods, with its arguments (for `Add`
also the identifier the generator returns during the call). -/
inductive Call where
  | Add (uid : String) (product : Option Ptr)
  | Update (name : String) (product : Option Ptr)
  | Delete (name : String)

/-- The service and the heap after a call; `none` when the call panics. -/
def Call.exec {α : Type} (c : Call) (s : Service × Heap α) : Option (Service × Heap α) :=
  match c with
  | .Add uid product =>
    match s.1.Add uid s.2 product with
    | some (_, p1, heap1) => some (p1, heap1)
    | none => none
  | .Update name product =>
    match s.1.Update s.2 name product with
    | some (_, p1) => some (p1, s.2)
    | none => none
  | .Delete name => some ((s.1.Delete name).2, s.2)

/-- The service and the heap after a sequence of calls, made one after the
other with nothing else writing to the heap in between. -/
def execAll {α : Type} : List Call → Service × Heap α → Option (Service × Heap α)
  | [], s => some s
  | c :: cs, s =>
    match c.exec s with
    | some s1 => execAll cs s1
    | none => none

/-! ## The critical sections of `Add`

The method `Add` takes the lock twice: `p.exist(product.Name)` runs under the
read lock and releases it, and the insertion runs later under the write lock.
Each of the two sections is atomic; between them the lock is free, so a section
of another call can run there. -/

/-- Where a call of `Add` stands: before the existence check, between the check
and the insertion, or returned (with success or with the error). -/
inductive AddPc where
  | check
  | insert
  | returned (ok : Bool)
deriving DecidableEq, Repr

/-- A call of `Add` in progress: the identifier the generator gives it, its
argument and its position. -/
structure AddCall where
  uid : String
  product : Ptr
  pc : AddPc

/-- One atomic section of a call of `Add`.  At `check`: lines 67-69, the
existence check under the read lock.  At `insert`: lines 70-75, the assignment
of the identifier and the insertion under the write lock. -/
def AddCall.step {α : Type} (c : AddCall) (s : Service × Heap α) :
    AddCall × (Service × Heap α) :=
  match c.pc with
  | .check =>
    if s.1.exist (s.2 c.product).Name then
      ({ c with pc := .returned false }, s)
    else
      ({ c with pc := .insert }, s)
  | .insert =>
    let heap1 : Heap α := Function.update s.2 c.product { s.2 c.product with UID := c.uid }
    ({ c with pc := .returned true },
      ({ products := s.1.products.insert (heap1 c.product).Name c.product }, heap1))
  | .returned _ => (c, s)

/-- Two concurrent calls of `Add` run under a schedule: each entry of the
schedule lets the first call (`true`) or the second call (`false`) run its next
atomic section. -/
def runTwo {α : Type} : List Bool → AddCall → AddCall → Service × Heap α →
    AddCall × AddCall × (Service × Heap α)
  | [], a, b, s => (a, b, s)
  | true :: rest, a, b, s => runTwo rest (a.step s).1 b (a.step s).2
  | false :: rest, a, b, s => runTwo rest a (b.step s).1 (b.step s).2

/-! ## Sample data

Concrete heaps, stores and a concrete `SortByKey` on which the theorems below
are instantiated. -/

/-- A heap with `p0` (price 10) at address 0, `p1` (price 20) at address 1 and
a not yet identified product `p2` (price 30) everywhere else; `rest` is the
price. -/
def sampleHeap : Heap Nat := fun a =>
  if a = 0 then { UID := "uid-0", Name := "p0", rest := 10 }
  else if a = 1 then { UID := "uid-1", Name := "p1", rest := 20 }
  else { UID := "", Name := "p2", rest := 30 }

/-- The store without entities. -/
def emptyService : Service := { products := ∅ }

/-- The store holding `p0`. -/
def oneService : Service := { products := AList.insert "p0" 0 ∅ }

/-- The store holding `p0` and `p1`. -/
def twoService : Service := { products := AList.insert "p1" 1 (AList.insert "p0" 0 ∅) }

/-- The names `p0` .. `p9`. -/
def tenNames : List String := ["p0", "p1", "p2", "p3", "p4", "p5", "p6", "p7", "p8", "p9"]

/-- A heap with `p0` .. `p9` at the addresses 0 .. 9, in ascending price. -/
def tenHeap : Heap Nat := fun a =>
  { UID := "uid", Name := tenNames.getD a "p", rest := 10 * a }

/-- The store holding `p0` .. `p9`, iterated in an order that is not the price
order. -/
def tenService : Service :=
  { products := AList.insert "p4" 4 (AList.insert "p9" 9 (AList.insert "p0" 0
      (AList.insert "p7" 7 (AList.insert "p2" 2 (AList.insert "p5" 5
      (AList.insert "p8" 8 (AList.insert "p1" 1 (AList.insert "p6" 6
      (AList.insert "p3" 3 ∅))))))))) }

/-- A `SortByKey` that orders by `rest` (the price) whatever the key, ascending
or, when `reverseOrder` is set, descending. -/
def priceSorter : Sorter Nat where
  sort heap l _ reverseOrder :=
    if reverseOrder then
      l.insertionSort (fun a b => (heap b).rest ≤ (heap a).rest)
    else
      l.insertionSort (fun a b => (heap a).rest ≤ (heap b).rest)
  length_sort heap l _ reverseOrder := by
    cases reverseOrder <;> simp [List.length_insertionSort]

/-- A comparator that compares the prices (`rest`) whatever the key. -/
def priceComparator : Comparator Nat := fun a b _ => compare a.rest b.rest

/-- The store holding `p0` and `p1`, iterated in the other order. -/
def twoServiceSwapped : Service :=
  { products := AList.insert "p0" 0 (AList.insert "p1" 1 ∅) }

/-- A heap whose object at address 5 is named `p1` and carries no identifier,
and whose object at address 6 is named `p1` and carries the identifier of the
object at address 1. -/
def updateHeap : Heap Nat :=
  Function.update (Function.update sampleHeap 5 { UID := "", Name := "p1", rest := 99 })
    6 { UID := "uid-1", Name := "p1", rest := 77 }

/-- A heap with two distinct objects, at the addresses 7 and 8, both named
`p2`. -/
def raceHeap : Heap Nat :=
  Function.update (Function.update sampleHeap 7 { UID := "", Name := "p2", rest := 1 })
    8 { UID := "", Name := "p2", rest := 2 }

/-! ## Helper lemmas -/

/-- The helper `exist` answers membership in the key set. -/
theorem Service.exist_eq_true_iff (p : Service) (name : String) :
    p.exist name = true ↔ name ∈ p.keys := by
  unfold Service.exist Service.keys
  rw [← AList.mem_keys, ← AList.lookup_isSome]
  cases p.products.lookup name <;> simp

/-- The helper `exist` is false exactly off the key set. -/
theorem Service.exist_eq_false_iff (p : Service) (name : String) :
    p.exist name = false ↔ name ∉ p.keys := by
  rw [← Service.exist_eq_true_iff]
  cases p.exist name <;> simp

/-- The method `Get` is the map lookup. -/
theorem Service.Get_eq_lookup (p : Service) (name : String) :
    p.Get name = p.products.lookup name := by
  unfold Service.Get
  cases p.products.lookup name <;> rfl

/-! ## Add -/

/-- C1: when the name of the entity `heap ptr` is already a key of the store,
`Add` fails with `ErrorAlreadyExist`, returns no entity, and leaves both the
store and the heap (so also the entity's `UID`) exactly as they were. -/
theorem Add_existing_name_fails {α : Type} (uid : String) (p : Service) (heap : Heap α)
    (ptr : Ptr) (h : (heap ptr).Name ∈ p.keys) :
    p.Add uid heap (some ptr)
      = some (.error (.ErrorAlreadyExist (heap ptr).Name), p, heap) := by
  have hex : p.exist (heap ptr).Name = true := (p.exist_eq_true_iff _).2 h
  simp [Service.Add, hex]

/-- Witness for C1: adding a second `p1` to the store holding `p0` and `p1`. -/
theorem Add_existing_name_fails_witness :
    "p1" ∈ twoService.keys ∧
    twoService.Add "fresh" sampleHeap (some 1)
      = some (.error (.ErrorAlreadyExist "p1"), twoService, sampleHeap) :=
  ⟨by decide, Add_existing_name_fails "fresh" twoService sampleHeap 1 (by decide)⟩

/-- C2: when `Add` succeeds on the entity `heap ptr`, returning the reference
`r`, a following `Get` of the entity's name returns that same reference `r`;
it is the reference that was passed in, and the entity behind it equals the
original one in `Name` and in every other field, its `UID` being the freshly
generated `uid`, which is non-empty when the generator's output is. -/
theorem Add_then_Get {α : Type} (uid : String) (p p1 : Service) (heap heap1 : Heap α)
    (ptr r : Ptr) (huid : uid ≠ "")
    (hadd : p.Add uid heap (some ptr) = some (.ok r, p1, heap1)) :
    p1.Get (heap ptr).Name = some r ∧ r = ptr ∧
      heap1 r = { heap ptr with UID := uid } ∧
      (heap1 r).Name = (heap ptr).Name ∧ (heap1 r).rest = (heap ptr).rest ∧
      (heap1 r).UID = uid ∧ (heap1 r).UID ≠ "" := by
  unfold Service.Add at hadd
  simp only at hadd
  split at hadd
  · simp at hadd
  · simp only [Option.some.injEq, Prod.mk.injEq, Except.ok.injEq] at hadd
    obtain ⟨hr, hp, hh⟩ := hadd
    subst hr hp hh
    simp [Service.Get_eq_lookup, Function.update_same, huid]

/-- Witness for C2: adding `p2` to the store holding `p0` and `p1`. -/
theorem Add_then_Get_witness :
    ("fresh" ≠ "" ∧
      twoService.Add "fresh" sampleHeap (some 2)
        = some (.ok 2, Service.mk (AList.insert "p2" 2 twoService.products),
            Function.update sampleHeap 2 { sampleHeap 2 with UID := "fresh" })) ∧
    (Service.mk (AList.insert "p2" 2 twoService.products)).Get (sampleHeap 2).Name = some 2 ∧
      (Function.update sampleHeap 2 { sampleHeap 2 with UID := "fresh" } 2).UID ≠ "" :=
  have h := Add_then_Get "fresh" twoService
    (Service.mk (AList.insert "p2" 2 twoService.products)) sampleHeap
    (Function.update sampleHeap 2 { sampleHeap 2 with UID := "fresh" }) 2 2
    (by decide) rfl
  ⟨⟨by decide, rfl⟩, h.1, h.2.2.2.2.2.2⟩

/-! ## GetAll -/

/-- A sum inside the `int` range is not changed by wrap-around. -/
theorem wrapInt_of_inRange (x : Int) (hlo : minInt ≤ x) (hhi : x ≤ maxInt) :
    wrapInt x = x := by
  unfold minInt at hlo
  unfold maxInt at hhi
  unfold wrapInt
  omega

/-- The number of snapshot entries is the size of the store. -/
theorem Service.length_values (p : Service) : p.values.length = p.size := by
  simp [Service.values, Service.size]

/-- With the start index inside the store, a non-negative limit and a sum
`start + limit` that does not wrap around, `GetAll` returns the window of the
sorted snapshot that starts at `start` and has at most `limit` elements. -/
theorem GetAll_window {α : Type} (SortByKey : Sorter α) (p : Service) (heap : Heap α)
    (start limit : Int) (orderKey : String) (reverseOrder : Bool)
    (h0 : 0 ≤ start) (hN : start < p.size) (hl : 0 ≤ limit)
    (hsum : start + limit ≤ maxInt) :
    p.GetAll SortByKey heap start limit orderKey reverseOrder
      = some (((SortByKey.sort heap p.values orderKey reverseOrder).drop start.toNat).take
          (min limit (p.size - start)).toNat) := by
  have hw : wrapInt (start + limit) = start + limit :=
    wrapInt_of_inRange _ (by unfold minInt; omega) hsum
  have hlen := p.length_values
  have hs : ¬ ((p.size : Int) ≤ start) := by omega
  unfold Service.GetAll sliceExpr
  simp only [hlen, ge_iff_le, gt_iff_lt, if_neg hs, hw]
  by_cases hc : (p.size : Int) < start + limit
  · rw [if_pos hc, if_pos (by omega)]
    congr 2
    omega
  · rw [if_neg hc, if_pos (by omega)]
    congr 2
    omega

/-- The last element of a list is what remains after dropping all but one. -/
theorem drop_length_pred_of_getLast? {β : Type} (l : List β) (x : β)
    (h : l.getLast? = some x) : l.drop (l.length - 1) = [x] := by
  obtain ⟨ys, rfl⟩ := List.getLast?_eq_some_iff.1 h
  simp

/-- With the start index at or past the end of a non-empty store, a limit of at
least one and no wrap-around, `GetAll` returns the one-element window at the
last index of the sorted snapshot. -/
theorem GetAll_clamped {α : Type} (SortByKey : Sorter α) (p : Service) (heap : Heap α)
    (start limit : Int) (orderKey : String) (reverseOrder : Bool)
    (hpos : 0 < p.size) (hN : (p.size : Int) ≤ start) (hl : 1 ≤ limit)
    (hsum : (p.size : Int) - 1 + limit ≤ maxInt) :
    p.GetAll SortByKey heap start limit orderKey reverseOrder
      = some (((SortByKey.sort heap p.values orderKey reverseOrder).drop (p.size - 1)).take 1) := by
  have hw : wrapInt ((p.size : Int) - 1 + limit) = (p.size : Int) - 1 + limit :=
    wrapInt_of_inRange _ (by unfold minInt; omega) hsum
  have hlen := p.length_values
  have hc : (p.size : Int) < (p.size : Int) - 1 + limit ∨
      (p.size : Int) - 1 + limit = p.size := by omega
  unfold Service.GetAll sliceExpr
  simp only [hlen, ge_iff_le, gt_iff_lt, if_pos hN, hw]
  rcases hc with hc | hc
  · rw [if_pos hc, if_pos (by omega)]
    congr 2
    · omega
    · congr 1
      omega
  · rw [if_neg (show ¬ ((p.size : Int) < (p.size : Int) - 1 + limit) by omega),
      if_pos (by omega)]
    congr 2
    · omega
    · congr 1
      omega

/-- On a store without entities `GetAll` panics whatever the arguments: the
start index is negative already or is clamped to `-1`. -/
theorem GetAll_of_size_eq_zero {α : Type} (SortByKey : Sorter α) (p : Service)
    (heap : Heap α) (start limit : Int) (orderKey : String) (reverseOrder : Bool)
    (hp : p.size = 0) :
    p.GetAll SortByKey heap start limit orderKey reverseOrder = none := by
  have hlen := p.length_values
  unfold Service.GetAll sliceExpr
  simp only [hlen, hp]
  rw [if_neg]
  intro ⟨h1, _, _⟩
  split at h1 <;> omega

/-- C3 fails as stated: with `0 <= start < N` the call panics (slice bounds out
of range) instead of returning a sequence when `limit` is negative, and also
when `start + limit` wraps around the `int` range. -/
theorem GetAll_length_counterexample :
    ((0 : Int) ≤ 0 ∧ (0 : Int) < oneService.size ∧
      oneService.GetAll priceSorter sampleHeap 0 (-1) "price" false = none) ∧
    ((0 : Int) ≤ 1 ∧ (1 : Int) < twoService.size ∧
      twoService.GetAll priceSorter sampleHeap 1 maxInt "price" false = none) := by
  decide

/-- C3, amended: for a store with `N` entities, `0 <= start < N`, `0 <= limit`
and `start + limit` within the `int` range, `GetAll` returns a sequence of
length exactly `max(0, min(limit, N - start))`. -/
theorem GetAll_length {α : Type} (SortByKey : Sorter α) (p : Service) (heap : Heap α)
    (start limit : Int) (orderKey : String) (reverseOrder : Bool)
    (h0 : 0 ≤ start) (hN : start < p.size) (hl : 0 ≤ limit)
    (hsum : start + limit ≤ maxInt) :
    ∃ l, p.GetAll SortByKey heap start limit orderKey reverseOrder = some l ∧
      (l.length : Int) = max 0 (min limit (p.size - start)) := by
  refine ⟨_, GetAll_window SortByKey p heap start limit orderKey reverseOrder h0 hN hl hsum, ?_⟩
  rw [List.length_take, List.length_drop, SortByKey.length_sort, p.length_values]
  omega

/-- Witness for C3: the second page of size five of the store holding `p0` and
`p1` has one element. -/
theorem GetAll_length_witness :
    ((0 : Int) ≤ 1 ∧ (1 : Int) < twoService.size ∧ (0 : Int) ≤ 5 ∧ (1 : Int) + 5 ≤ maxInt) ∧
    ∃ l, twoService.GetAll priceSorter sampleHeap 1 5 "price" true = some l ∧
      (l.length : Int) = max 0 (min 5 (twoService.size - 1)) :=
  ⟨by decide,
    GetAll_length priceSorter twoService sampleHeap 1 5 "price" true
      (by decide) (by decide) (by decide) (by decide)⟩

/-- C4 fails as stated: with `start >= N > 0` and `limit = 0` the result is the
empty sequence, not the last element of the sorted snapshot; and the call
panics when `limit` is negative or when `N - 1 + limit` wraps around. -/
theorem GetAll_past_end_counterexample :
    (0 < twoService.size ∧ (twoService.size : Int) ≤ 7 ∧
      (priceSorter.sort sampleHeap twoService.values "price" false).getLast? = some 1) ∧
    twoService.GetAll priceSorter sampleHeap 7 0 "price" false = some [] ∧
    twoService.GetAll priceSorter sampleHeap 7 (-1) "price" false = none ∧
    twoService.GetAll priceSorter sampleHeap 7 maxInt "price" false = none := by
  decide

/-- C4, amended: for a non-empty store with `N` entities, `start >= N`,
`limit >= 1` and `N - 1 + limit` within the `int` range, `GetAll` returns
exactly one entity, the last element of the snapshot as sorted by
`SortByKey`. -/
theorem GetAll_past_end {α : Type} (SortByKey : Sorter α) (p : Service) (heap : Heap α)
    (start limit : Int) (orderKey : String) (reverseOrder : Bool)
    (hpos : 0 < p.size) (hN : (p.size : Int) ≤ start) (hl : 1 ≤ limit)
    (hsum : (p.size : Int) - 1 + limit ≤ maxInt) :
    ∃ x, (SortByKey.sort heap p.values orderKey reverseOrder).getLast? = some x ∧
      p.GetAll SortByKey heap start limit orderKey reverseOrder = some [x] := by
  have hsort := SortByKey.length_sort heap p.values orderKey reverseOrder
  have hne : SortByKey.sort heap p.values orderKey reverseOrder ≠ [] := by
    intro hnil
    rw [hnil, p.length_values] at hsort
    simp at hsort
    omega
  refine ⟨_, List.getLast?_eq_getLast _ hne, ?_⟩
  rw [GetAll_clamped SortByKey p heap start limit orderKey reverseOrder hpos hN hl hsum]
  have hd := drop_length_pred_of_getLast? _ _ (List.getLast?_eq_getLast _ hne)
  rw [hsort, p.length_values] at hd
  rw [hd]
  rfl

/-- Witness for C4: with `p0` .. `p9` in ascending price, `GetAll(15, 5,
"price", false)` returns only `p9`. -/
theorem GetAll_past_end_witness :
    (0 < tenService.size ∧ (tenService.size : Int) ≤ 15 ∧ (1 : Int) ≤ 5 ∧
      (tenService.size : Int) - 1 + 5 ≤ maxInt) ∧
    (∃ x, (priceSorter.sort tenHeap tenService.values "price" false).getLast? = some x ∧
      tenService.GetAll priceSorter tenHeap 15 5 "price" false = some [x]) ∧
    tenService.GetAll priceSorter tenHeap 15 5 "price" false = some [9] :=
  ⟨by decide,
    GetAll_past_end priceSorter tenService tenHeap 15 5 "price" false
      (by decide) (by decide) (by decide) (by decide),
    by decide⟩

/-- C5 fails on the code: on the store without entities `GetAll` does not
return an empty sequence; for every start, limit, key and direction it panics,
because the start index is negative or is clamped to `len - 1 = -1`. -/
theorem GetAll_empty_store_panics {α : Type} (SortByKey : Sorter α) (heap : Heap α)
    (start limit : Int) (orderKey : String) (reverseOrder : Bool) :
    emptyService.GetAll SortByKey heap start limit orderKey reverseOrder = none :=
  GetAll_of_size_eq_zero SortByKey emptyService heap start limit orderKey reverseOrder rfl

/-! ## Delete -/

/-- C6: `Delete(name)` succeeds (returns the nil error) exactly when `name` was
a key of the store beforehand, and after a successful `Delete(name)` the call
`Get(name)` returns nil. -/
theorem Delete_then_Get (p : Service) (name : String) :
    ((p.Delete name).1 = none ↔ name ∈ p.keys) ∧
    ((p.Delete name).1 = none → (p.Delete name).2.Get name = none) := by
  unfold Service.Delete
  cases hex : p.exist name
  · have hk : name ∉ p.keys := (p.exist_eq_false_iff name).1 hex
    simp [hk]
  · have hk : name ∈ p.keys := (p.exist_eq_true_iff name).1 hex
    simp [hk, Service.Get_eq_lookup]

/-- Witness for C6: deleting `p0` from the store holding `p0` and `p1`. -/
theorem Delete_then_Get_witness :
    (twoService.Delete "p0").1 = none ∧ "p0" ∈ twoService.keys ∧
      (twoService.Delete "p0").2.Get "p0" = none :=
  ⟨by decide, by decide, (Delete_then_Get twoService "p0").2 (by decide)⟩

/-- C7: when `name` is not a key of the store, `Delete(name)` fails with
`ErrorNotFound` and returns the store it was given. -/
theorem Delete_absent_fails (p : Service) (name : String) (h : name ∉ p.keys) :
    p.Delete name = (some (.ErrorNotFound name), p) := by
  have hex : p.exist name = false := (p.exist_eq_false_iff name).2 h
  simp [Service.Delete, hex]

/-- Witness for C7: deleting `p2` from the store holding `p0` and `p1`. -/
theorem Delete_absent_fails_witness :
    "p2" ∉ twoService.keys ∧
      twoService.Delete "p2" = (some (.ErrorNotFound "p2"), twoService) :=
  ⟨by decide, Delete_absent_fails twoService "p2" (by decide)⟩

/-! ## Update -/

/-- C8: when the name of the entity `heap ptr` differs from `name`,
`Update(name, entity)` fails with `ErrorValidationFailed` and returns the store
it was given, whether or not `name` is a key of the store. -/
theorem Update_name_mismatch_fails {α : Type} (p : Service) (heap : Heap α)
    (name : String) (ptr : Ptr) (h : (heap ptr).Name ≠ name) :
    p.Update heap name (some ptr) = some (some (.ErrorValidationFailed name), p) := by
  simp [Service.Update, h]

/-- Witness for C8: updating under the absent key `p2`, and under the present
key `p1`, with the entity named `p0`. -/
theorem Update_name_mismatch_fails_witness :
    ((sampleHeap 0).Name ≠ "p2" ∧ "p2" ∉ twoService.keys ∧
      twoService.Update sampleHeap "p2" (some 0)
        = some (some (.ErrorValidationFailed "p2"), twoService)) ∧
    ((sampleHeap 0).Name ≠ "p1" ∧ "p1" ∈ twoService.keys ∧
      twoService.Update sampleHeap "p1" (some 0)
        = some (some (.ErrorValidationFailed "p1"), twoService)) :=
  ⟨⟨by decide, by decide,
      Update_name_mismatch_fails twoService sampleHeap "p2" 0 (by decide)⟩,
    ⟨by decide, by decide,
      Update_name_mismatch_fails twoService sampleHeap "p1" 0 (by decide)⟩⟩

/-- C9: when `name` is not a key of the store and the entity `heap ptr` is
named `name`, `Update(name, entity)` fails with `ErrorNotFound` and returns the
store it was given, so no key is inserted. -/
theorem Update_absent_fails {α : Type} (p : Service) (heap : Heap α)
    (name : String) (ptr : Ptr) (hname : (heap ptr).Name = name) (h : name ∉ p.keys) :
    p.Update heap name (some ptr) = some (some (.ErrorNotFound name), p) := by
  have hex : p.exist name = false := (p.exist_eq_false_iff name).2 h
  simp [Service.Update, hname, hex]

/-- Witness for C9: updating the absent `p2` in the store holding `p0` and
`p1`. -/
theorem Update_absent_fails_witness :
    ((sampleHeap 2).Name = "p2" ∧ "p2" ∉ twoService.keys) ∧
      twoService.Update sampleHeap "p2" (some 2)
        = some (some (.ErrorNotFound "p2"), twoService) :=
  ⟨by decide, Update_absent_fails twoService sampleHeap "p2" 2 (by decide) (by decide)⟩

/-- C10: when `name` is a key of the store and the entity `heap ptr` is named
`name`, `Update(name, entity)` succeeds; afterwards `Get(name)` returns the
reference `ptr` that was passed in (the heap is not written, so the entity
behind it is the caller's, `UID` included), and the store has the same keys. -/
theorem Update_present_replaces {α : Type} (p : Service) (heap : Heap α)
    (name : String) (ptr : Ptr) (hname : (heap ptr).Name = name) (h : name ∈ p.keys) :
    ∃ p1, p.Update heap name (some ptr) = some (none, p1) ∧
      p1.Get name = some ptr ∧ (∀ k, k ∈ p1.keys ↔ k ∈ p.keys) ∧
      p1.keys.Perm p.keys := by
  have hex : p.exist name = true := (p.exist_eq_true_iff name).2 h
  have hmem : name ∈ p.products := AList.mem_keys.2 h
  have hperm : (p.products.insert name ptr).keys.Perm p.products.keys := by
    rw [AList.keys_insert]
    exact (List.perm_cons_erase h).symm
  refine ⟨{ products := p.products.insert name ptr }, ?_, ?_, ?_, hperm⟩
  · simp [Service.Update, hname, hex]
  · simp [Service.Get_eq_lookup]
  · intro k
    exact hperm.mem_iff

/-- Witness for C10: replacing `p1` in the store holding `p0` and `p1` by
another entity named `p1`. -/
theorem Update_present_replaces_witness :
    ((Function.update sampleHeap 5 { UID := "mine", Name := "p1", rest := 99 } 5).Name = "p1" ∧
      "p1" ∈ twoService.keys) ∧
    ∃ p1, twoService.Update
        (Function.update sampleHeap 5 { UID := "mine", Name := "p1", rest := 99 }) "p1" (some 5)
          = some (none, p1) ∧
      p1.Get "p1" = some 5 ∧ (∀ k, k ∈ p1.keys ↔ k ∈ twoService.keys) ∧
      p1.keys.Perm twoService.keys :=
  ⟨by decide,
    Update_present_replaces twoService
      (Function.update sampleHeap 5 { UID := "mine", Name := "p1", rest := 99 }) "p1" 5
      (by decide) (by decide)⟩

/-! ## Order and contents of the listing -/

/-- The method `GetAll` slices the sorted snapshot at the indices computed by
`sliceBounds`. -/
theorem GetAll_eq_sliceExpr {α : Type} (SortByKey : Sorter α) (p : Service) (heap : Heap α)
    (start limit : Int) (orderKey : String) (reverseOrder : Bool) :
    p.GetAll SortByKey heap start limit orderKey reverseOrder
      = sliceExpr (SortByKey.sort heap p.values orderKey reverseOrder) p.size
          (sliceBounds p.size start limit).1 (sliceBounds p.size start limit).2 := by
  simp only [Service.GetAll, sliceBounds, p.length_values]

/-- A slice expression that returns, returns a contiguous part of the slice. -/
theorem sliceExpr_contiguous (s l : List Ptr) (cap lo hi : Int)
    (h : sliceExpr s cap lo hi = some l) : l <:+: s := by
  unfold sliceExpr at h
  split at h
  · cases h
    exact ⟨s.take lo.toNat, (s.drop lo.toNat).drop (hi - lo).toNat, by
      rw [List.append_assoc, List.take_append_drop, List.take_append_drop]⟩
  · cases h

/-- Whatever `GetAll` returns is a contiguous part of the sorted snapshot. -/
theorem GetAll_contiguous {α : Type} (SortByKey : Sorter α) (p : Service) (heap : Heap α)
    (start limit : Int) (orderKey : String) (reverseOrder : Bool) (l : List Ptr)
    (h : p.GetAll SortByKey heap start limit orderKey reverseOrder = some l) :
    l <:+: SortByKey.sort heap p.values orderKey reverseOrder := by
  rw [GetAll_eq_sliceExpr] at h
  exact sliceExpr_contiguous _ _ _ _ _ h

/-- C11: when `SortByKey` leaves the snapshot with every adjacent pair in order
for `orderKey` and `reverseOrder`, every adjacent pair `a` (index `i`), `b`
(index `i + 1`) of a sequence returned by `GetAll` is in order too: `a` is not
greater than `b`, or, under `reverseOrder`, not less than `b`. -/
theorem GetAll_adjacent_inOrder {α : Type} (SortByKey : Sorter α)
    (CompareByKey : Comparator α) (p : Service) (heap : Heap α)
    (start limit : Int) (orderKey : String) (reverseOrder : Bool) (l : List Ptr)
    (hsorted : List.Chain' (inOrder CompareByKey heap orderKey reverseOrder)
      (SortByKey.sort heap p.values orderKey reverseOrder))
    (h : p.GetAll SortByKey heap start limit orderKey reverseOrder = some l) :
    ∀ (i : Nat) (a b : Ptr), l[i]? = some a → l[i + 1]? = some b →
      inOrder CompareByKey heap orderKey reverseOrder a b := by
  have hl : List.Chain' (inOrder CompareByKey heap orderKey reverseOrder) l := by
    obtain ⟨l1, l2, hcat⟩ :=
      GetAll_contiguous SortByKey p heap start limit orderKey reverseOrder l h
    rw [← hcat] at hsorted
    exact hsorted.left_of_append.right_of_append
  intro i a b ha hb
  obtain ⟨hi1, hb1⟩ := List.getElem?_eq_some.1 hb
  obtain ⟨hi0, ha0⟩ := List.getElem?_eq_some.1 ha
  have := List.chain'_iff_get.1 hl i (by omega)
  simp only [List.get_eq_getElem] at this
  rw [ha0, hb1] at this
  exact this

/-- Witness for C11: with `p0` .. `p9` in ascending price, `GetAll(0, 3,
"price", true)` returns `p9`, `p8`, `p7`, and `p9` is not cheaper than `p8`. -/
theorem GetAll_adjacent_inOrder_witness :
    tenService.GetAll priceSorter tenHeap 0 3 "price" true = some [9, 8, 7] ∧
      tenService.GetAll priceSorter tenHeap 0 3 "price" false = some [0, 1, 2] ∧
      inOrder priceComparator tenHeap "price" true 9 8 :=
  ⟨by decide, by decide,
    GetAll_adjacent_inOrder priceSorter priceComparator tenService tenHeap 0 3 "price" true
      [9, 8, 7] (List.Pairwise.chain' (by decide)) (by decide) 0 9 8 rfl rfl⟩

/-! ## Invariants of the store -/

/-- The stored references are the results of the lookups. -/
theorem Service.mem_values_iff (p : Service) (ptr : Ptr) :
    ptr ∈ p.values ↔ ∃ name, p.products.lookup name = some ptr := by
  unfold Service.values
  constructor
  · intro h
    obtain ⟨e, he, rfl⟩ := List.mem_map.1 h
    exact ⟨e.1, AList.mem_lookup_iff.2 he⟩
  · rintro ⟨name, h⟩
    exact List.mem_map.2 ⟨⟨name, ptr⟩, AList.mem_lookup_iff.1 h, rfl⟩

/-- Writing the `UID` of one object changes the `Name` of none. -/
theorem Name_update_UID {α : Type} (heap : Heap α) (ptr q : Ptr) (uid : String) :
    (Function.update heap ptr { heap ptr with UID := uid } q).Name = (heap q).Name := by
  by_cases hq : q = ptr
  · subst hq
    simp
  · simp [Function.update_noteq hq]

/-- A lookup after an insertion finds the inserted reference or an old one. -/
theorem lookup_insert_cases (m : AList (fun _ : String => Ptr)) (name k : String)
    (ptr q : Ptr) (h : (m.insert name ptr).lookup k = some q) :
    (k = name ∧ q = ptr) ∨ (k ≠ name ∧ m.lookup k = some q) := by
  by_cases hk : k = name
  · subst hk
    rw [AList.lookup_insert] at h
    exact Or.inl ⟨rfl, (Option.some.inj h).symm⟩
  · rw [AList.lookup_insert_ne hk] at h
    exact Or.inr ⟨hk, h⟩

/-- A lookup after a removal finds an old reference under another key. -/
theorem lookup_erase_cases (m : AList (fun _ : String => Ptr)) (name k : String)
    (q : Ptr) (h : (m.erase name).lookup k = some q) :
    k ≠ name ∧ m.lookup k = some q := by
  by_cases hk : k = name
  · subst hk
    rw [AList.lookup_erase] at h
    cases h
  · rw [AList.lookup_erase_ne hk] at h
    exact ⟨hk, h⟩

/-- After `n` iterations of the loop of `NewService` every stored reference is
one of the addresses below `n`, holds the product built for it, and is stored
under that product's name. -/
theorem seed_loop {α : Type} (newUID : Nat → String) (payload : Nat → α) (heap : Heap α)
    (n : Nat) (name : String) (ptr : Ptr)
    (h : ((List.range n).foldl (seedStep newUID payload)
      (({ products := ∅ } : Service), heap)).1.products.lookup name = some ptr) :
    ptr < n ∧
      ((List.range n).foldl (seedStep newUID payload)
        (({ products := ∅ } : Service), heap)).2 ptr = seedProduct newUID payload ptr ∧
      (seedProduct newUID payload ptr).Name = name := by
  induction n generalizing name ptr with
  | zero => simp at h
  | succ n ih =>
    rw [List.range_succ, List.foldl_append] at h ⊢
    simp only [List.foldl_cons, List.foldl_nil, seedStep] at h ⊢
    rcases lookup_insert_cases _ _ _ _ _ h with ⟨hk, hq⟩ | ⟨_, hold⟩
    · subst hq
      exact ⟨Nat.lt_succ_self _, by simp, hk.symm⟩
    · obtain ⟨hlt, hobj, hname⟩ := ih name ptr hold
      refine ⟨Nat.lt_succ_of_lt hlt, ?_, hname⟩
      rw [Function.update_noteq (Nat.ne_of_lt hlt)]
      exact hobj

/-- The store built by `NewService` keeps every entity under its own name. -/
theorem NewService_KeysAreNames {α : Type} (newUID : Nat → String) (payload : Nat → α)
    (heap : Heap α) :
    (NewService newUID payload heap).1.KeysAreNames (NewService newUID payload heap).2 := by
  intro name ptr h
  obtain ⟨_, hobj, hname⟩ := seed_loop newUID payload heap 10 name ptr h
  unfold NewService
  rw [hobj]
  exact hname

/-- The store built by `NewService` holds identified entities only, when the
generator returns non-empty strings. -/
theorem NewService_Identified {α : Type} (newUID : Nat → String) (payload : Nat → α)
    (heap : Heap α) (hgen : ∀ i, newUID i ≠ "") :
    (NewService newUID payload heap).1.Identified (NewService newUID payload heap).2 := by
  intro ptr hptr
  obtain ⟨name, h⟩ := (Service.mem_values_iff _ _).1 hptr
  obtain ⟨_, hobj, _⟩ := seed_loop newUID payload heap 10 name ptr h
  unfold NewService
  rw [hobj]
  exact hgen ptr

/-- Every call of `Add` with a non-empty generated identifier, successful or
failed, keeps the stored entities identified. -/
theorem Add_Identified {α : Type} (uid : String) (p p1 : Service) (heap heap1 : Heap α)
    (product : Option Ptr) (r : Except ServiceError Ptr) (huid : uid ≠ "")
    (hinv : p.Identified heap) (hadd : p.Add uid heap product = some (r, p1, heap1)) :
    p1.Identified heap1 := by
  unfold Service.Add at hadd
  cases product with
  | none => simp at hadd
  | some ptr =>
    simp only at hadd
    split at hadd
    · simp only [Option.some.injEq, Prod.mk.injEq] at hadd
      obtain ⟨_, hp, hh⟩ := hadd
      subst hp hh
      exact hinv
    · simp only [Option.some.injEq, Prod.mk.injEq] at hadd
      obtain ⟨_, hp, hh⟩ := hadd
      subst hp hh
      intro q hq
      obtain ⟨k, hk⟩ := (Service.mem_values_iff _ _).1 hq
      by_cases hqp : q = ptr
      · subst hqp
        simpa using huid
      · rw [Function.update_noteq hqp]
        rcases lookup_insert_cases _ _ _ _ _ hk with ⟨_, hq1⟩ | ⟨_, hold⟩
        · exact absurd hq1 hqp
        · exact hinv q ((Service.mem_values_iff _ _).2 ⟨k, hold⟩)

/-- Every call of `Delete`, successful or failed, keeps the stored entities
identified. -/
theorem Delete_Identified {α : Type} (p : Service) (heap : Heap α) (name : String)
    (hinv : p.Identified heap) : (p.Delete name).2.Identified heap := by
  unfold Service.Delete
  split
  · exact hinv
  · intro q hq
    obtain ⟨k, hk⟩ := (Service.mem_values_iff _ _).1 hq
    exact hinv q ((Service.mem_values_iff _ _).2 ⟨k, (lookup_erase_cases _ _ _ _ hk).2⟩)

/-- A call of `Update` that fails, or whose replacement entity carries a
non-empty identifier, keeps the stored entities identified. -/
theorem Update_Identified {α : Type} (p p1 : Service) (heap : Heap α) (name : String)
    (ptr : Ptr) (e : Option ServiceError) (hinv : p.Identified heap)
    (hupd : p.Update heap name (some ptr) = some (e, p1))
    (hid : e = none → (heap ptr).UID ≠ "") : p1.Identified heap := by
  unfold Service.Update at hupd
  simp only at hupd
  split at hupd
  · simp only [Option.some.injEq, Prod.mk.injEq] at hupd
    obtain ⟨_, hp⟩ := hupd
    subst hp
    exact hinv
  · split at hupd
    · simp only [Option.some.injEq, Prod.mk.injEq] at hupd
      obtain ⟨_, hp⟩ := hupd
      subst hp
      exact hinv
    · simp only [Option.some.injEq, Prod.mk.injEq] at hupd
      obtain ⟨he, hp⟩ := hupd
      subst hp
      intro q hq
      obtain ⟨k, hk⟩ := (Service.mem_values_iff _ _).1 hq
      rcases lookup_insert_cases _ _ _ _ _ hk with ⟨_, hq1⟩ | ⟨_, hold⟩
      · subst hq1
        exact hid he.symm
      · exact hinv q ((Service.mem_values_iff _ _).2 ⟨k, hold⟩)

/-- C12 fails as stated: `Update` does not preserve the invariant.  In the store
holding the identified `p0` and `p1`, `Update("p1", e)` with an entity `e`
named `p1` whose `UID` is empty succeeds, and afterwards the entity stored
under `p1` has an empty `UID`. -/
theorem Identified_counterexample :
    twoService.Identified updateHeap ∧ (updateHeap 5).Name = "p1" ∧
      twoService.Update updateHeap "p1" (some 5)
        = some (none, Service.mk (twoService.products.insert "p1" 5)) ∧
      ¬ (Service.mk (twoService.products.insert "p1" 5)).Identified updateHeap := by
  refine ⟨by decide, by decide, rfl, by decide⟩

/-- C12, amended: given that the identifier generator returns non-empty
strings, every entity in the store built by `NewService` has a non-empty
`UID`, and the invariant is preserved by every `Add` and every `Delete`,
successful or failed, and by every `Update` that fails or whose replacement
entity carries a non-empty `UID`. -/
theorem Identified_invariant {α : Type} (newUID : Nat → String) (payload : Nat → α)
    (heap0 : Heap α) (hgen : ∀ i, newUID i ≠ "") :
    (NewService newUID payload heap0).1.Identified (NewService newUID payload heap0).2 ∧
    ∀ (p : Service) (heap : Heap α), p.Identified heap →
      (∀ uid product r p1 heap1, uid ≠ "" →
        p.Add uid heap product = some (r, p1, heap1) → p1.Identified heap1) ∧
      (∀ name, (p.Delete name).2.Identified heap) ∧
      (∀ name ptr e p1, p.Update heap name (some ptr) = some (e, p1) →
        (e = none → (heap ptr).UID ≠ "") → p1.Identified heap) :=
  ⟨NewService_Identified newUID payload heap0 hgen, fun p heap hinv =>
    ⟨fun uid product r p1 heap1 huid hadd =>
        Add_Identified uid p p1 heap heap1 product r huid hinv hadd,
      fun name => Delete_Identified p heap name hinv,
      fun name ptr e p1 hupd hid => Update_Identified p p1 heap name ptr e hinv hupd hid⟩⟩

/-- Witness for C12: the seeded store, and the removal of `p0` from the store
holding `p0` and `p1`. -/
theorem Identified_invariant_witness :
    (∀ i : Nat, (fun _ : Nat => "generated") i ≠ "") ∧
    (NewService (fun _ => "generated") (fun i => i) sampleHeap).1.Identified
      (NewService (fun _ => "generated") (fun i => i) sampleHeap).2 ∧
    twoService.Identified sampleHeap ∧
    (twoService.Delete "p0").2.Identified sampleHeap :=
  have h := Identified_invariant (fun _ => "generated") (fun i => i) sampleHeap
    (fun _ => (by decide : "generated" ≠ ""))
  ⟨fun _ => (by decide : "generated" ≠ ""), h.1, by decide, ((h.2 twoService sampleHeap (by decide)).2.1 "p0")⟩

/-- Every call that returns keeps every entity under its own name. -/
theorem Call.exec_KeysAreNames {α : Type} (c : Call) (s s1 : Service × Heap α)
    (hinv : s.1.KeysAreNames s.2) (h : c.exec s = some s1) : s1.1.KeysAreNames s1.2 := by
  cases c with
  | Add uid product =>
    cases product with
    | none => simp [Call.exec, Service.Add] at h
    | some ptr =>
      simp only [Call.exec, Service.Add] at h
      cases hex : s.1.exist (s.2 ptr).Name
      · simp only [hex, Bool.false_eq_true, if_false, Option.some.injEq] at h
        subst h
        intro k q hk
        simp only [Name_update_UID] at hk ⊢
        rcases lookup_insert_cases _ _ _ _ _ hk with ⟨hk1, hq1⟩ | ⟨_, hold⟩
        · rw [hq1, hk1]
        · exact hinv k q hold
      · simp only [hex, if_true, Option.some.injEq] at h
        subst h
        exact hinv
  | Update name product =>
    cases product with
    | none => simp [Call.exec, Service.Update] at h
    | some ptr =>
      simp only [Call.exec, Service.Update] at h
      by_cases hname : (s.2 ptr).Name = name
      · cases hex : s.1.exist name
        · simp [hname, hex] at h
          subst h
          exact hinv
        · simp [hname, hex] at h
          subst h
          intro k q hk
          rcases lookup_insert_cases _ _ _ _ _ hk with ⟨hk1, hq1⟩ | ⟨_, hold⟩
          · rw [hq1, hk1]
            exact hname
          · exact hinv k q hold
      · simp [hname] at h
        subst h
        exact hinv
  | Delete name =>
    simp only [Call.exec, Option.some.injEq] at h
    subst h
    unfold Service.Delete
    split
    · exact hinv
    · intro k q hk
      exact hinv k q (lookup_erase_cases _ _ _ _ hk).2

/-- Every sequence of calls that returns keeps every entity under its own
name. -/
theorem execAll_KeysAreNames {α : Type} (calls : List Call) (s s1 : Service × Heap α)
    (hinv : s.1.KeysAreNames s.2) (h : execAll calls s = some s1) :
    s1.1.KeysAreNames s1.2 := by
  induction calls generalizing s with
  | nil =>
    simp only [execAll, Option.some.injEq] at h
    subst h
    exact hinv
  | cons c cs ih =>
    simp only [execAll] at h
    split at h
    · rename_i s2 hc
      exact ih s2 (Call.exec_KeysAreNames c s s2 hinv hc) h
    · cases h

/-- C13: in every store reached from `NewService` by a sequence of `Add`,
`Update` and `Delete` calls, each entity is stored under the key equal to its
own `Name`, so two stored entities with the same `Name` are stored under the
same key and are one entity. -/
theorem reachable_unique_names {α : Type} (newUID : Nat → String) (payload : Nat → α)
    (heap0 : Heap α) (calls : List Call) (s : Service × Heap α)
    (h : execAll calls (NewService newUID payload heap0) = some s) :
    s.1.KeysAreNames s.2 ∧
      ∀ n1 n2 q1 q2, s.1.Get n1 = some q1 → s.1.Get n2 = some q2 →
        (s.2 q1).Name = (s.2 q2).Name → n1 = n2 ∧ q1 = q2 := by
  have hinv := execAll_KeysAreNames calls _ s
    (NewService_KeysAreNames newUID payload heap0) h
  refine ⟨hinv, ?_⟩
  intro n1 n2 q1 q2 h1 h2 hn
  rw [Service.Get_eq_lookup] at h1 h2
  have e1 := hinv n1 q1 h1
  have e2 := hinv n2 q2 h2
  have hn12 : n1 = n2 := by rw [← e1, ← e2, hn]
  subst hn12
  rw [h1] at h2
  exact ⟨rfl, Option.some.inj h2⟩

/-- Witness for C13: the seeded store after an `Add` of `p2`, a `Delete` of
`product3` and an `Update` of `product4`. -/
theorem reachable_unique_names_witness :
    ∃ s : Service × Heap Nat,
      execAll [Call.Add "fresh" (some 20), Call.Delete "product3",
          Call.Update "product4" (some 4)]
        (NewService (fun _ => "generated") (fun i => i) sampleHeap) = some s ∧
      s.1.KeysAreNames s.2 :=
  (Option.isSome_iff_exists.1 (by decide :
    (execAll [Call.Add "fresh" (some 20), Call.Delete "product3",
        Call.Update "product4" (some 4)]
      (NewService (fun _ => "generated") (fun i => i) sampleHeap)).isSome = true)).imp
    (fun s h => ⟨h, (reachable_unique_names (fun _ => "generated") (fun i => i) sampleHeap
      [Call.Add "fresh" (some 20), Call.Delete "product3",
        Call.Update "product4" (some 4)] s h).1⟩)

/-! ## Update and the identifier -/

/-- C14 fails as stated: in the store holding `p0` and `p1`, `Update("p1", e)`
with an entity `e` named `p1` whose `UID` is empty succeeds, and the entity
stored under `p1` afterwards does not have the `UID` of the entity stored under
`p1` before. -/
theorem Update_UID_counterexample :
    twoService.Get "p1" = some 1 ∧
      twoService.Update updateHeap "p1" (some 5)
        = some (none, Service.mk (twoService.products.insert "p1" 5)) ∧
      (Service.mk (twoService.products.insert "p1" 5)).Get "p1" = some 5 ∧
      (updateHeap 5).UID ≠ (updateHeap 1).UID := by
  refine ⟨by decide, rfl, by decide, by decide⟩

/-- C14, amended: `Update` generates no identifier.  After every successful
`Update(name, e)` the entity stored under `name` is `e` itself, with the `UID`
the caller supplied; so the `UID` stored under `name` after the call equals the
`UID` of the entity stored under `name` before the call exactly when `e`
carries the `UID` of the entity it replaces. -/
theorem Update_UID {α : Type} (p p1 : Service) (heap : Heap α) (name : String)
    (ptr : Ptr) (hupd : p.Update heap name (some ptr) = some (none, p1)) :
    ∃ old, p.Get name = some old ∧ p1.Get name = some ptr ∧
      ∀ new, p1.Get name = some new →
        new = ptr ∧ (heap new).UID = (heap ptr).UID ∧
        ((heap new).UID = (heap old).UID ↔ (heap ptr).UID = (heap old).UID) := by
  have hname : (heap ptr).Name = name := by
    by_contra hne
    simp [Service.Update, hne] at hupd
  have hex : p.exist name = true := by
    cases hex : p.exist name
    · simp [Service.Update, hname, hex] at hupd
    · rfl
  have hkey : name ∈ p.keys := (p.exist_eq_true_iff name).1 hex
  obtain ⟨old, hold⟩ : ∃ old, p.Get name = some old := by
    rw [Service.Get_eq_lookup]
    exact Option.isSome_iff_exists.1 (AList.lookup_isSome.2 (AList.mem_keys.2 hkey))
  simp only [Service.Update, hname, ne_eq, not_true_eq_false, if_false, hex, Bool.not_true,
    Bool.false_eq_true, Option.some.injEq, Prod.mk.injEq, true_and] at hupd
  subst hupd
  have hget : (Service.mk (p.products.insert name ptr)).Get name = some ptr := by
    simp [Service.Get_eq_lookup]
  refine ⟨old, hold, hget, ?_⟩
  intro new hnew
  rw [hget] at hnew
  cases hnew
  exact ⟨rfl, rfl, Iff.rfl⟩

/-- Witness for C14: replacing `p1` by an entity that carries the `UID` of the
stored `p1` keeps the stored `UID`, replacing it by an entity without `UID`
does not. -/
theorem Update_UID_witness :
    (twoService.Update updateHeap "p1" (some 6)
        = some (none, Service.mk (twoService.products.insert "p1" 6)) ∧
      twoService.Update updateHeap "p1" (some 5)
        = some (none, Service.mk (twoService.products.insert "p1" 5))) ∧
    (∃ old, twoService.Get "p1" = some old ∧
      (Service.mk (twoService.products.insert "p1" 6)).Get "p1" = some 6 ∧
      ∀ new, (Service.mk (twoService.products.insert "p1" 6)).Get "p1" = some new →
        new = 6 ∧ (updateHeap new).UID = (updateHeap 6).UID ∧
        ((updateHeap new).UID = (updateHeap old).UID
          ↔ (updateHeap 6).UID = (updateHeap old).UID)) ∧
    (updateHeap 6).UID = (updateHeap 1).UID ∧ (updateHeap 5).UID ≠ (updateHeap 1).UID ∧
    (Service.mk (twoService.products.insert "p1" 5)).Get "p1" = some 5 :=
  ⟨⟨rfl, rfl⟩,
    Update_UID twoService (Service.mk (twoService.products.insert "p1" 6)) updateHeap "p1"
      6 rfl,
    by decide, by decide,
    (Update_UID twoService (Service.mk (twoService.products.insert "p1" 5)) updateHeap "p1"
      5 rfl).elim (fun _ h => h.2.1)⟩

/-! ## Get -/

/-- C15: `Get(name)` returns the reference stored under `name` when `name` is a
key of the store and nil otherwise.  The method reads the map and writes
nothing, so its embedding is a function of the store that returns no new
store. -/
theorem Get_spec (p : Service) (name : String) :
    (∀ ptr, p.Get name = some ptr ↔ (⟨name, ptr⟩ : Sigma fun _ : String => Ptr) ∈ p.products.entries) ∧
    ((p.Get name).isSome = true ↔ name ∈ p.keys) ∧
    (p.Get name = none ↔ name ∉ p.keys) := by
  rw [Service.Get_eq_lookup]
  refine ⟨fun ptr => ?_, ?_, ?_⟩
  · exact AList.mem_lookup_iff
  · rw [AList.lookup_isSome]
    exact AList.mem_keys
  · rw [AList.lookup_eq_none]
    exact not_congr AList.mem_keys

/-! ## Concurrent calls of Add -/

/-- The two atomic sections of a call of `Add`, run one after the other with
nothing in between, are the method `Add`. -/
theorem Add_eq_two_steps {α : Type} (uid : String) (p : Service) (heap : Heap α) (ptr : Ptr) :
    ∃ r, p.Add uid heap (some ptr)
        = some (r, (runTwo [true, true] ⟨uid, ptr, .check⟩ ⟨uid, ptr, .check⟩ (p, heap)).2.2) ∧
      (runTwo [true, true] ⟨uid, ptr, .check⟩ ⟨uid, ptr, .check⟩ (p, heap)).1.pc
        = .returned r.toBool := by
  cases hex : p.exist (heap ptr).Name
  · exact ⟨.ok ptr, by simp [Service.Add, runTwo, AddCall.step, hex],
      by simp [runTwo, AddCall.step, hex, Except.toBool]⟩
  · exact ⟨.error (.ErrorAlreadyExist (heap ptr).Name),
      by simp [Service.Add, runTwo, AddCall.step, hex],
      by simp [runTwo, AddCall.step, hex, Except.toBool]⟩

/-- When the existence checks of two calls of `Add` for the same new name both
run before either insertion, both calls return success, and the store keeps
only the entity inserted last. -/
theorem Add_race {α : Type} (uidA uidB : String) (p : Service) (heap : Heap α)
    (a b : Ptr) (hab : a ≠ b) (hname : (heap a).Name = (heap b).Name)
    (hnew : (heap a).Name ∉ p.keys) :
    (runTwo [true, false, true, false] ⟨uidA, a, .check⟩ ⟨uidB, b, .check⟩ (p, heap)).1.pc
        = .returned true ∧
      (runTwo [true, false, true, false] ⟨uidA, a, .check⟩ ⟨uidB, b, .check⟩ (p, heap)).2.1.pc
        = .returned true ∧
      (runTwo [true, false, true, false] ⟨uidA, a, .check⟩ ⟨uidB, b, .check⟩
        (p, heap)).2.2.1.Get (heap a).Name = some b := by
  have hexa : p.exist (heap a).Name = false := (p.exist_eq_false_iff _).2 hnew
  have hexb : p.exist (heap b).Name = false := hname ▸ hexa
  have hba : b ≠ a := fun h => hab h.symm
  simp [runTwo, AddCall.step, hexa, hexb, Service.Get_eq_lookup, Function.update_noteq hba,
    hname]

/-- C16 fails on the code: `Add` releases the lock between the existence check
and the insertion.  With two distinct entities (addresses 7 and 8) both named
`p2` and a store without `p2`, the schedule check, check, insert, insert lets
both calls of `Add` return success and leaves only the second entity in the
store, while run one after the other the second call fails. -/
theorem Add_race_both_succeed :
    "p2" ∉ twoService.keys ∧ (raceHeap 7).Name = "p2" ∧ (raceHeap 8).Name = "p2" ∧
    (runTwo [true, false, true, false] ⟨"uid-a", 7, .check⟩ ⟨"uid-b", 8, .check⟩
      (twoService, raceHeap)).1.pc = .returned true ∧
    (runTwo [true, false, true, false] ⟨"uid-a", 7, .check⟩ ⟨"uid-b", 8, .check⟩
      (twoService, raceHeap)).2.1.pc = .returned true ∧
    (runTwo [true, false, true, false] ⟨"uid-a", 7, .check⟩ ⟨"uid-b", 8, .check⟩
      (twoService, raceHeap)).2.2.1.Get "p2" = some 8 ∧
    (runTwo [true, true, false, false] ⟨"uid-a", 7, .check⟩ ⟨"uid-b", 8, .check⟩
      (twoService, raceHeap)).2.1.pc = .returned false := by
  decide

/-! ## Slice bounds -/

/-- C17 fails as stated: with two entities, `start = 1` and `limit` the largest
`int`, the sum `start + limit` wraps around to the smallest `int`, the end
index lies below the start index and the slicing panics. -/
theorem sliceBounds_counterexample :
    (0 < twoService.size ∧ (0 : Int) ≤ 1 ∧ 0 ≤ maxInt) ∧
      sliceBounds twoService.size 1 maxInt = (1, minInt) ∧
      ¬ ((sliceBounds twoService.size 1 maxInt).1 ≤ (sliceBounds twoService.size 1 maxInt).2) ∧
      twoService.GetAll priceSorter sampleHeap 1 maxInt "price" false = none := by
  decide

/-- C17, amended: for a non-empty store with `N` entities, `start >= 0` and
`limit >= 0` such that the sum of the clamped start and `limit` stays within
the `int` range, `GetAll` computes the bounds `start' = min(start, N - 1)` and
`end = min(start' + limit, N)`, they satisfy `0 <= start' <= end <= N`, and the
final slicing returns. -/
theorem sliceBounds_valid {α : Type} (SortByKey : Sorter α) (p : Service) (heap : Heap α)
    (start limit : Int) (orderKey : String) (reverseOrder : Bool)
    (hpos : 0 < p.size) (h0 : 0 ≤ start) (hl : 0 ≤ limit)
    (hsum : min start ((p.size : Int) - 1) + limit ≤ maxInt) :
    (sliceBounds p.size start limit).1 = min start ((p.size : Int) - 1) ∧
      (sliceBounds p.size start limit).2
        = min ((sliceBounds p.size start limit).1 + limit) p.size ∧
      0 ≤ (sliceBounds p.size start limit).1 ∧
      (sliceBounds p.size start limit).1 ≤ (sliceBounds p.size start limit).2 ∧
      (sliceBounds p.size start limit).2 ≤ p.size ∧
      ∃ l, p.GetAll SortByKey heap start limit orderKey reverseOrder = some l := by
  have h1 : (sliceBounds p.size start limit).1 = min start ((p.size : Int) - 1) := by
    unfold sliceBounds
    simp only [ge_iff_le]
    split <;> omega
  have hw : wrapInt (min start ((p.size : Int) - 1) + limit)
      = min start ((p.size : Int) - 1) + limit :=
    wrapInt_of_inRange _ (by unfold minInt; omega) hsum
  have h2 : (sliceBounds p.size start limit).2
      = min (min start ((p.size : Int) - 1) + limit) p.size := by
    have h1a : (if start ≥ (p.size : Int) then (p.size : Int) - 1 else start)
        = min start ((p.size : Int) - 1) := by
      split <;> omega
    unfold sliceBounds
    simp only [h1a, hw, gt_iff_lt]
    split <;> omega
  refine ⟨h1, by rw [h2, h1], by omega, by omega, by omega, ?_⟩
  rw [GetAll_eq_sliceExpr]
  unfold sliceExpr
  rw [if_pos ⟨by omega, by omega, by omega⟩]
  exact ⟨_, rfl⟩

/-- Witness for C17: `GetAll(7, 5)` on the store holding `p0` and `p1`. -/
theorem sliceBounds_valid_witness :
    (0 < twoService.size ∧ (0 : Int) ≤ 7 ∧ (0 : Int) ≤ 5 ∧
      min (7 : Int) ((twoService.size : Int) - 1) + 5 ≤ maxInt) ∧
    (sliceBounds twoService.size 7 5).1 ≤ (sliceBounds twoService.size 7 5).2 ∧
    ∃ l, twoService.GetAll priceSorter sampleHeap 7 5 "price" false = some l :=
  have h := sliceBounds_valid priceSorter twoService sampleHeap 7 5 "price" false
    (by decide) (by decide) (by decide) (by decide)
  ⟨by decide, h.2.2.2.1, h.2.2.2.2.2⟩

/-! ## The full listing and its windows -/

/-- The invariant `KeysAreNames` can be checked entry by entry. -/
theorem Service.keysAreNames_iff_entries {α : Type} (p : Service) (heap : Heap α) :
    p.KeysAreNames heap ↔ ∀ e ∈ p.products.entries, (heap e.2).Name = e.1 := by
  constructor
  · intro h e he
    exact h e.1 e.2 (AList.mem_lookup_iff.2 he)
  · intro h name ptr hl
    exact h ⟨name, ptr⟩ (AList.mem_lookup_iff.1 hl)

/-- In a store that keeps every entity under its own name no reference is
stored twice. -/
theorem Service.nodup_values {α : Type} (p : Service) (heap : Heap α)
    (hinv : p.KeysAreNames heap) : p.values.Nodup := by
  unfold Service.values
  refine List.Nodup.map_on ?_ p.products.nodupKeys.nodup
  intro x hx y hy hxy
  have h1 := (p.keysAreNames_iff_entries heap).1 hinv x hx
  have h2 := (p.keysAreNames_iff_entries heap).1 hinv y hy
  obtain ⟨xk, xv⟩ := x
  obtain ⟨yk, yv⟩ := y
  simp only at hxy h1 h2
  subst hxy
  rw [← h1, ← h2]

/-- C18: for a store with `N > 0` entities, each kept under its own name, and a
`SortByKey` that permutes the snapshot, `GetAll(0, N, orderKey, reverseOrder)`
returns every stored entity exactly once, and whatever `GetAll` returns for any
`start` and `limit` is a contiguous window of that full listing, holds only
entities of the store and holds none twice. -/
theorem GetAll_full_listing {α : Type} (SortByKey : Sorter α) (p : Service) (heap : Heap α)
    (orderKey : String) (reverseOrder : Bool)
    (hpos : 0 < p.size) (hmax : (p.size : Int) ≤ maxInt)
    (hperm : (SortByKey.sort heap p.values orderKey reverseOrder).Perm p.values)
    (hinv : p.KeysAreNames heap) :
    ∃ full, p.GetAll SortByKey heap 0 p.size orderKey reverseOrder = some full ∧
      full.Perm p.values ∧ full.Nodup ∧
      ∀ (start limit : Int) (l : List Ptr),
        p.GetAll SortByKey heap start limit orderKey reverseOrder = some l →
          l <:+: full ∧ (∀ x ∈ l, x ∈ p.values) ∧ l.Nodup := by
  have hnd : (SortByKey.sort heap p.values orderKey reverseOrder).Nodup :=
    hperm.symm.nodup (p.nodup_values heap hinv)
  refine ⟨SortByKey.sort heap p.values orderKey reverseOrder, ?_, hperm, hnd, ?_⟩
  · rw [GetAll_window SortByKey p heap 0 p.size orderKey reverseOrder (le_refl 0)
      (by omega) (by omega) (by omega)]
    congr 1
    simp only [Int.toNat_zero, List.drop_zero, sub_zero, min_self, Int.toNat_ofNat]
    apply List.take_of_length_le
    rw [SortByKey.length_sort, p.length_values]
  · intro start limit l hl
    have hinf := GetAll_contiguous SortByKey p heap start limit orderKey reverseOrder l hl
    exact ⟨hinf, fun x hx => hperm.subset (hinf.subset hx), hinf.sublist.nodup hnd⟩

/-- Witness for C18: the store holding `p0` .. `p9`, listed by descending
price. -/
theorem GetAll_full_listing_witness :
    (0 < tenService.size ∧ (tenService.size : Int) ≤ maxInt ∧
      (priceSorter.sort tenHeap tenService.values "price" true).Perm tenService.values) ∧
    tenService.KeysAreNames tenHeap ∧
    tenService.GetAll priceSorter tenHeap 0 10 "price" true
      = some [9, 8, 7, 6, 5, 4, 3, 2, 1, 0] ∧
    ∃ full, tenService.GetAll priceSorter tenHeap 0 tenService.size "price" true = some full ∧
      full.Perm tenService.values ∧ full.Nodup ∧
      ∀ (start limit : Int) (l : List Ptr),
        tenService.GetAll priceSorter tenHeap start limit "price" true = some l →
          l <:+: full ∧ (∀ x ∈ l, x ∈ tenService.values) ∧ l.Nodup :=
  ⟨by decide, (tenService.keysAreNames_iff_entries tenHeap).2 (by decide), by decide,
    GetAll_full_listing priceSorter tenService tenHeap "price" true (by decide) (by decide)
      (by decide) ((tenService.keysAreNames_iff_entries tenHeap).2 (by decide))⟩

/-! ## Frame of the mutations -/

/-- The size of the store is the number of its keys. -/
theorem Service.size_eq_length_keys (p : Service) : p.size = p.keys.length := by
  simp [Service.size, Service.keys, AList.keys, List.keys]

/-- Inserting under a new key adds one entry. -/
theorem size_insert_new (p : Service) (name : String) (ptr : Ptr) (h : name ∉ p.keys) :
    (Service.mk (p.products.insert name ptr)).size = p.size + 1 := by
  have hk : name ∉ p.products.keys := h
  rw [Service.size_eq_length_keys, Service.size_eq_length_keys]
  simp only [Service.keys, AList.keys_insert, List.length_cons,
    List.erase_of_not_mem hk]

/-- Inserting under a present key keeps the number of entries. -/
theorem size_insert_present (p : Service) (name : String) (ptr : Ptr) (h : name ∈ p.keys) :
    (Service.mk (p.products.insert name ptr)).size = p.size := by
  have hk : name ∈ p.products.keys := h
  have hpos : 0 < p.products.keys.length := List.length_pos_of_mem hk
  rw [Service.size_eq_length_keys, Service.size_eq_length_keys]
  simp only [Service.keys, AList.keys_insert, List.length_cons,
    List.length_erase_of_mem hk]
  omega

/-- Removing a present key removes one entry. -/
theorem size_erase_present (p : Service) (name : String) (h : name ∈ p.keys) :
    (Service.mk (p.products.erase name)).size + 1 = p.size := by
  have hk : name ∈ p.products.keys := h
  have hpos : 0 < p.products.keys.length := List.length_pos_of_mem hk
  rw [Service.size_eq_length_keys, Service.size_eq_length_keys]
  simp only [Service.keys, AList.keys_erase, List.length_erase_of_mem hk]
  omega

/-- C19: a successful mutation of the key `n` leaves `Get(m)` as it was for
every other name `m`.  A successful `Add` of an entity named `n` adds exactly
one entity (and, in a store that keeps every entity under its own name, leaves
the object behind `Get(m)` untouched), a successful `Update(n, e)` keeps the
number of entities, and a successful `Delete(n)` removes exactly one. -/
theorem mutation_frame {α : Type} (p : Service) (heap : Heap α) (n m : String)
    (hne : m ≠ n) :
    (∀ uid ptr r p1 heap1, (heap ptr).Name = n →
      p.Add uid heap (some ptr) = some (.ok r, p1, heap1) →
        p1.Get m = p.Get m ∧ p1.size = p.size + 1 ∧
        (p.KeysAreNames heap → ∀ q, p.Get m = some q → heap1 q = heap q)) ∧
    (∀ ptr p1, p.Update heap n (some ptr) = some (none, p1) →
      p1.Get m = p.Get m ∧ p1.size = p.size) ∧
    (∀ p1, p.Delete n = (none, p1) → p1.Get m = p.Get m ∧ p1.size + 1 = p.size) := by
  refine ⟨?_, ?_, ?_⟩
  · intro uid ptr r p1 heap1 hname hadd
    cases hex : p.exist (heap ptr).Name
    · simp only [Service.Add, hex, Bool.false_eq_true, if_false, Option.some.injEq,
        Prod.mk.injEq, Except.ok.injEq] at hadd
      obtain ⟨_, hp, hh⟩ := hadd
      subst hp hh
      have hkey : n ∉ p.keys := hname ▸ (p.exist_eq_false_iff _).1 hex
      have hn1 : (Function.update heap ptr { heap ptr with UID := uid } ptr).Name = n := by
        rw [Name_update_UID]
        exact hname
      rw [hn1]
      refine ⟨?_, size_insert_new p n ptr hkey, ?_⟩
      · simp only [Service.Get_eq_lookup]
        exact AList.lookup_insert_ne hne
      · intro hinv q hq
        rw [Service.Get_eq_lookup] at hq
        have hqn : (heap q).Name = m := hinv m q hq
        have hqp : q ≠ ptr := by
          intro h
          rw [h, hname] at hqn
          exact hne hqn.symm
        exact Function.update_noteq hqp _ _
    · simp [Service.Add, hex] at hadd
  · intro ptr p1 hupd
    by_cases hname : (heap ptr).Name = n
    · cases hex : p.exist n
      · simp [Service.Update, hname, hex] at hupd
      · simp only [Service.Update, hname, ne_eq, not_true_eq_false, if_false, hex,
          Bool.not_true, Bool.false_eq_true, Option.some.injEq, Prod.mk.injEq,
          true_and] at hupd
        subst hupd
        refine ⟨?_, size_insert_present p n ptr ((p.exist_eq_true_iff n).1 hex)⟩
        simp only [Service.Get_eq_lookup]
        exact AList.lookup_insert_ne hne
    · simp [Service.Update, hname] at hupd
  · intro p1 hdel
    cases hex : p.exist n
    · simp [Service.Delete, hex] at hdel
    · simp only [Service.Delete, hex, Bool.not_true, Bool.false_eq_true, if_false,
        Prod.mk.injEq, true_and] at hdel
      subst hdel
      refine ⟨?_, size_erase_present p n ((p.exist_eq_true_iff n).1 hex)⟩
      simp only [Service.Get_eq_lookup]
      exact AList.lookup_erase_ne hne

/-- Witness for C19: adding `p2` to, updating `p0` in and deleting `p0` from
the store holding `p0` and `p1`, observed at `p1`. -/
theorem mutation_frame_witness :
    (("p1" : String) ≠ "p2" ∧ (sampleHeap 2).Name = "p2" ∧
      twoService.Add "fresh" sampleHeap (some 2)
        = some (.ok 2, Service.mk (AList.insert "p2" 2 twoService.products),
            Function.update sampleHeap 2 { sampleHeap 2 with UID := "fresh" })) ∧
    ((Service.mk (AList.insert "p2" 2 twoService.products)).Get "p1" = twoService.Get "p1" ∧
      (Service.mk (AList.insert "p2" 2 twoService.products)).size = twoService.size + 1) ∧
    (("p1" : String) ≠ "p0" ∧
      twoService.Delete "p0" = (none, Service.mk (twoService.products.erase "p0"))) ∧
    ((Service.mk (twoService.products.erase "p0")).Get "p1" = twoService.Get "p1" ∧
      (Service.mk (twoService.products.erase "p0")).size + 1 = twoService.size) :=
  have hadd := ((mutation_frame twoService sampleHeap "p2" "p1" (by decide)).1 "fresh" 2 2
    (Service.mk (AList.insert "p2" 2 twoService.products))
    (Function.update sampleHeap 2 { sampleHeap 2 with UID := "fresh" }) (by decide) rfl)
  ⟨⟨by decide, by decide, rfl⟩, ⟨hadd.1, hadd.2.1⟩, ⟨by decide, rfl⟩,
    (mutation_frame twoService sampleHeap "p0" "p1" (by decide)).2.2
      (Service.mk (twoService.products.erase "p0")) rfl⟩

/-! ## Determinism of the listing -/

/-- Two iteration orders of one map give permuted snapshots. -/
theorem values_perm (p1 p2 : Service)
    (hsame : p1.products.entries.Perm p2.products.entries) : p1.values.Perm p2.values :=
  hsame.map _

/-- When the comparator answers consistently for swapped arguments and ties no
two distinct stored entities, two stored entities that are in order both ways
are one entity. -/
theorem inOrder_antisymm {α : Type} (CompareByKey : Comparator α) (heap : Heap α)
    (orderKey : String) (reverseOrder : Bool) (a b : Ptr)
    (hswap : CompareByKey (heap b) (heap a) orderKey
      = (CompareByKey (heap a) (heap b) orderKey).swap)
    (hties : CompareByKey (heap a) (heap b) orderKey = Ordering.eq → a = b)
    (hab : inOrder CompareByKey heap orderKey reverseOrder a b)
    (hba : inOrder CompareByKey heap orderKey reverseOrder b a) : a = b := by
  unfold inOrder at hab hba
  rw [hswap] at hba
  cases hc : CompareByKey (heap a) (heap b) orderKey
  · cases reverseOrder <;> simp [hc, Ordering.swap] at hab hba
  · exact hties hc
  · cases reverseOrder <;> simp [hc, Ordering.swap] at hab hba

/-- C20: when the comparator for `orderKey` is a strict total order on the
stored entities (it answers consistently for swapped arguments and no two
distinct stored entities compare equal) and `SortByKey` returns a sorted
permutation of its input, `GetAll` returns the same result for any two
iteration orders of the same map. -/
theorem GetAll_deterministic {α : Type} (SortByKey : Sorter α)
    (CompareByKey : Comparator α) (p1 p2 : Service) (heap : Heap α)
    (start limit : Int) (orderKey : String) (reverseOrder : Bool)
    (hsame : p1.products.entries.Perm p2.products.entries)
    (hswap : ∀ a ∈ p1.values, ∀ b ∈ p1.values,
      CompareByKey (heap b) (heap a) orderKey
        = (CompareByKey (heap a) (heap b) orderKey).swap)
    (hties : ∀ a ∈ p1.values, ∀ b ∈ p1.values,
      CompareByKey (heap a) (heap b) orderKey = Ordering.eq → a = b)
    (hperm1 : (SortByKey.sort heap p1.values orderKey reverseOrder).Perm p1.values)
    (hperm2 : (SortByKey.sort heap p2.values orderKey reverseOrder).Perm p2.values)
    (hsorted1 : List.Pairwise (inOrder CompareByKey heap orderKey reverseOrder)
      (SortByKey.sort heap p1.values orderKey reverseOrder))
    (hsorted2 : List.Pairwise (inOrder CompareByKey heap orderKey reverseOrder)
      (SortByKey.sort heap p2.values orderKey reverseOrder)) :
    p1.GetAll SortByKey heap start limit orderKey reverseOrder
      = p2.GetAll SortByKey heap start limit orderKey reverseOrder := by
  have hv := values_perm p1 p2 hsame
  have hsize : p1.size = p2.size := by
    rw [← p1.length_values, ← p2.length_values]
    exact hv.length_eq
  have hsort : SortByKey.sort heap p1.values orderKey reverseOrder
      = SortByKey.sort heap p2.values orderKey reverseOrder := by
    refine List.Perm.eq_of_sorted ?_ hsorted1 hsorted2
      (hperm1.trans (hv.trans hperm2.symm))
    intro a b ha hb hab hba
    have ha1 : a ∈ p1.values := hperm1.subset ha
    have hb1 : b ∈ p1.values := hv.symm.subset (hperm2.subset hb)
    exact inOrder_antisymm CompareByKey heap orderKey reverseOrder a b
      (hswap a ha1 b hb1) (hties a ha1 b hb1) hab hba
  rw [GetAll_eq_sliceExpr, GetAll_eq_sliceExpr, hsort, hsize]

/-- Witness for C20: the store holding `p0` and `p1`, iterated `p1`, `p0` and
iterated `p0`, `p1`, listed by descending price. -/
theorem GetAll_deterministic_witness :
    twoService.values = [1, 0] ∧ twoServiceSwapped.values = [0, 1] ∧
    twoService.GetAll priceSorter sampleHeap 0 2 "price" true
      = twoServiceSwapped.GetAll priceSorter sampleHeap 0 2 "price" true :=
  ⟨by decide, by decide,
    GetAll_deterministic priceSorter priceComparator twoService twoServiceSwapped sampleHeap
      0 2 "price" true (List.Perm.swap _ _ _) (by decide) (by decide) (by decide) (by decide)
      (by decide) (by decide)⟩

end Repo
